import Mathlib

/-!
Verification of the DIA → {COO, CSR, ELL} sparse-matrix format conversions of
`cusp/system/detail/generic/conversions/dia_to_other.h`.

The conversions are embedded shallowly: matrices are records of `Nat` dimension
fields and `List Int` storage arrays, and each `convert` overload becomes a pure
Lean function producing the destination record.  Index arithmetic is done in
`Nat`/`Int` exactly as the source's iterator chains do it.  Pieces of the cusp
library that the header calls but that are not part of the two source files
(`array2d` geometry, `cusp::detail::indices_to_offsets`, the index functors of
`cusp/detail/functional.h`, the `resize` members of the matrix containers) are
modelled from the specification's description of them; each such definition
carries a doc comment saying so.
-/

/-- A DIA-format sparse matrix.  `values` is the dense value block, stored
column-major with row stride `pitch` (one column per stored diagonal), as a
flat list of length `pitch * diagonal_offsets.length`. -/
structure DiaMatrix where
  num_rows : Nat
  num_cols : Nat
  num_entries : Nat
  diagonal_offsets : List Int
  pitch : Nat
  values : List Int

/-- A COO-format sparse matrix: parallel row/column/value arrays. -/
structure CooMatrix where
  num_rows : Nat
  num_cols : Nat
  num_entries : Nat
  row_indices : List Int
  column_indices : List Int
  values : List Int

/-- A CSR-format sparse matrix: per-row offsets plus column/value arrays. -/
structure CsrMatrix where
  num_rows : Nat
  num_cols : Nat
  num_entries : Nat
  row_offsets : List Int
  column_indices : List Int
  values : List Int

/-- An ELL-format sparse matrix: `column_indices` and `values` are padded 2-D
blocks stored column-major with row stride `pitch`, flattened. -/
structure EllMatrix where
  num_rows : Nat
  num_cols : Nat
  num_entries : Nat
  num_entries_per_row : Nat
  pitch : Nat
  column_indices : List Int
  values : List Int

/-- Number of stored diagonals of a DIA matrix (`src.diagonal_offsets.size()`). -/
def numDiagonals (A : DiaMatrix) : Nat := A.diagonal_offsets.length

/-- Modelled from the spec: the slot count of the DIA value block
(`src.values.num_entries`), which §4.1 enumerates as the linear indices
`[0, pitch × num_diagonals)`. -/
def values_num_entries (A : DiaMatrix) : Nat := A.pitch * numDiagonals A

/-- `is_valid_coo_index` of `dia_to_other.h` (lines 87-108): a derived triple
`(i, j, value)` survives iff `i > -1 && i < num_rows`, `j > -1 && j < num_cols`
and `value != 0`. -/
def is_valid_coo_index (num_rows num_cols : Nat) (t : Int × Int × Int) : Bool :=
  (decide (t.1 > -1) && decide (t.1 < (num_rows : Int))) &&
  (decide (t.2.1 > -1) && decide (t.2.1 < (num_cols : Int))) &&
  decide (t.2.2 ≠ 0)

/-- `valid_ell_functor` of `dia_to_other.h` (lines 53-66): keep an in-range
column index, replace an out-of-range one by the sentinel `-1`. -/
def valid_ell_functor (num_cols : Nat) (col : Int) : Int :=
  if 0 ≤ col ∧ col < (num_cols : Int) then col else -1

/-- The zipped generator iterators of the conversions, read at a physical slot
index `p` of the column-major value block: `row_indices_begin` is
`modulus_value pitch` (`p % pitch`), the gathered diagonal is `p / pitch`
(`divide_value pitch`), the column is their functor sum
(`sum_tuple_functor` over `diagonal_offsets[p / pitch]` and `p % pitch`), and
the value is `src.values.values[p]`. -/
def diaSlot (A : DiaMatrix) (p : Nat) : Int × Int × Int :=
  (((p % A.pitch : Nat) : Int),
   A.diagonal_offsets.getD (p / A.pitch) 0 + ((p % A.pitch : Nat) : Int),
   A.values.getD p 0)

/-- Modelled from the spec:
`logical_to_other_physical_functor<IndexType, row_major, column_major>`
(`cusp/detail/functional.h`, not under the two source files) decomposes a
row-major logical linear index over a `num_rows × num_cols` block and
recomposes it as a physical index of the column-major block with row stride
`pitch` (spec §4.1 step 3: "the (row-major-remapped) position corresponding to
`(row, diag)` in the column-major value block"). -/
def logical_to_other_physical (_num_rows num_cols pitch : Nat) (k : Nat) : Nat :=
  (k % num_cols) * pitch + k / num_cols

/-- The materialised temporaries `temp0/temp1/temp2` of the COO and CSR
conversions, as a single list of triples: slot `k` of the row-major enumeration
reads the zipped generator at the permuted physical index. -/
def diaTemp (A : DiaMatrix) : List (Int × Int × Int) :=
  (List.range (values_num_entries A)).map
    (fun k => diaSlot A (logical_to_other_physical A.pitch (numDiagonals A) A.pitch k))

/-- The triples kept by the `copy_if` compaction step of the COO and CSR
conversions, in compaction order. -/
def survivors (A : DiaMatrix) : List (Int × Int × Int) :=
  (diaTemp A).filter (is_valid_coo_index A.num_rows A.num_cols)

/-- The enumerated triples written out directly in row-major `(row, diag)`
order: slot `k` has `row = k / num_diagonals`, `diag = k % num_diagonals`. -/
def rowMajorTriples (A : DiaMatrix) : List (Int × Int × Int) :=
  (List.range (values_num_entries A)).map
    (fun k =>
      (((k / numDiagonals A : Nat) : Int),
       A.diagonal_offsets.getD (k % numDiagonals A) 0 + ((k / numDiagonals A : Nat) : Int),
       A.values.getD ((k % numDiagonals A) * A.pitch + k / numDiagonals A) 0))

/-- The enumerated triples in diagonal-major, row-minor order: slot `k` has
`row = k % pitch`, `diag = k / pitch` (the un-permuted physical enumeration). -/
def diagMajorTriples (A : DiaMatrix) : List (Int × Int × Int) :=
  (List.range (values_num_entries A)).map (diaSlot A)

/-- Modelled from the spec: a destination array `resize`d to `n` slots is
value-initialised to zeros, and the compaction writes `xs` into its first
`xs.length` slots, leaving the tail untouched. -/
def fillInto (n : Nat) (xs : List Int) : List Int :=
  xs ++ List.replicate (n - xs.length) 0

/-- Modelled from the spec: `cusp::detail::indices_to_offsets` (not under the
two source files) reduces row indices to CSR row offsets by a
counts-to-prefix-sum transform over an offsets array of length `num_rows + 1`:
`offsets[i]` is the number of input entries with row index `< i`, each input
entry contributing exactly one unit to its row's count (spec §4.1 step 6). -/
def indices_to_offsets (indices : List Int) (num_rows : Nat) : List Int :=
  (List.range (num_rows + 1)).map
    (fun (i : Nat) => ((indices.filter (fun r => decide (r < (i : Int)))).length : Int))

/-- Expansion of a CSR `row_offsets` array back to per-entry row indices: row
`i` is repeated `row_offsets[i+1] - row_offsets[i]` times. -/
def expandOffsets (offsets : List Int) (num_rows : Nat) : List Int :=
  ((List.range num_rows).map
    (fun i => List.replicate (offsets.getD (i + 1) 0 - offsets.getD i 0).toNat ((i : Nat) : Int))).flatten

/-- `convert(exec, src, dst, dia_format, coo_format)` (lines 110-170): resize
the destination to `src.num_entries` zero-initialised slots, return at once if
`src.num_entries == 0`, otherwise compact the surviving triples to the front of
the destination arrays. -/
def convert_dia_to_coo (A : DiaMatrix) : CooMatrix :=
  if A.num_entries = 0 then
    { num_rows := A.num_rows, num_cols := A.num_cols, num_entries := A.num_entries,
      row_indices := [], column_indices := [], values := [] }
  else
    { num_rows := A.num_rows, num_cols := A.num_cols, num_entries := A.num_entries,
      row_indices := fillInto A.num_entries ((survivors A).map (fun t => t.1)),
      column_indices := fillInto A.num_entries ((survivors A).map (fun t => t.2.1)),
      values := fillInto A.num_entries ((survivors A).map (fun t => t.2.2)) }

/-- `convert(exec, src, dst, dia_format, csr_format)` (lines 172-235): same
pipeline as the COO conversion, but the surviving row indices are compacted
into a local `row_indices` array of `src.num_entries` zero-initialised slots,
which `indices_to_offsets` then reduces to `dst.row_offsets`. -/
def convert_dia_to_csr (A : DiaMatrix) : CsrMatrix :=
  if A.num_entries = 0 then
    { num_rows := A.num_rows, num_cols := A.num_cols, num_entries := A.num_entries,
      row_offsets := List.replicate (A.num_rows + 1) 0,
      column_indices := [], values := [] }
  else
    { num_rows := A.num_rows, num_cols := A.num_cols, num_entries := A.num_entries,
      row_offsets :=
        indices_to_offsets (fillInto A.num_entries ((survivors A).map (fun t => t.1))) A.num_rows,
      column_indices := fillInto A.num_entries ((survivors A).map (fun t => t.2.1)),
      values := fillInto A.num_entries ((survivors A).map (fun t => t.2.2)) }

/-- `convert(exec, src, dst, dia_format, ell_format)` (lines 237-280): resize
the destination to a block of `src.diagonal_offsets.size()` columns with the
source's pitch (spec §4.1: "ELL allocates a fixed-width block sized to source
diagonal count and pitch"; zero-initialised), return at once if
`src.num_entries == 0`, otherwise write every column-index slot through
`valid_ell_functor` and copy the value block verbatim. -/
def convert_dia_to_ell (A : DiaMatrix) : EllMatrix :=
  if A.num_entries = 0 then
    { num_rows := A.num_rows, num_cols := A.num_cols, num_entries := A.num_entries,
      num_entries_per_row := numDiagonals A, pitch := A.pitch,
      column_indices := List.replicate (values_num_entries A) 0,
      values := List.replicate (values_num_entries A) 0 }
  else
    { num_rows := A.num_rows, num_cols := A.num_cols, num_entries := A.num_entries,
      num_entries_per_row := numDiagonals A, pitch := A.pitch,
      column_indices :=
        (List.range (values_num_entries A)).map
          (fun p => valid_ell_functor A.num_cols
            (A.diagonal_offsets.getD (p / A.pitch) 0 + ((p % A.pitch : Nat) : Int))),
      values := A.values }

/-- The column index derived for a physical slot `p` of the value block:
`diagonal_offsets[p / pitch] + (p % pitch)`. -/
def derivedColumn (A : DiaMatrix) (p : Nat) : Int :=
  A.diagonal_offsets.getD (p / A.pitch) 0 + ((p % A.pitch : Nat) : Int)

/-- Structural validity of a DIA source (spec §4.1 contract and §3): the value
block is a dense `pitch × num_diagonals` column-major block with
`pitch ≥ num_rows`, and the `num_entries` slots allocated for the COO/CSR
destinations are an upper bound on the surviving triples. -/
abbrev StructurallyValid (A : DiaMatrix) : Prop :=
  A.num_rows ≤ A.pitch ∧
  A.values.length = A.pitch * numDiagonals A ∧
  (survivors A).length ≤ A.num_entries

/-- The concrete 3×3 DIA source of the spec's dropped-overhang scenario: one
diagonal at offset `+1`, pitch 3, stored values `[1, 2, 3]`; its two in-matrix
entries make `num_entries = 2`, the third slot is diagonal overhang. -/
def diaScenario : DiaMatrix :=
  { num_rows := 3, num_cols := 3, num_entries := 2,
    diagonal_offsets := [1], pitch := 3, values := [1, 2, 3] }

/-- A 2×2 DIA source with one diagonal at offset `-1` whose row-0 slot is
overhang: only one of the two allocated entries survives, so the zero tail of
the destination arrays is observable. -/
def diaPartial : DiaMatrix :=
  { num_rows := 2, num_cols := 2, num_entries := 2,
    diagonal_offsets := [-1], pitch := 2, values := [5, 7] }

/-- A 2×3 DIA source with two diagonals (offsets `0` and `+1`) on which the
row-major and the diagonal-major compaction orders differ. -/
def diaTwoDiag : DiaMatrix :=
  { num_rows := 2, num_cols := 3, num_entries := 4,
    diagonal_offsets := [0, 1], pitch := 2, values := [1, 2, 3, 4] }

/-- A DIA source with `num_entries = 0` but a nonempty value block whose only
slot has an out-of-range derived column. -/
def diaEmptyEntries : DiaMatrix :=
  { num_rows := 1, num_cols := 1, num_entries := 0,
    diagonal_offsets := [5], pitch := 1, values := [7] }

/-- A 2×2 DIA source whose main diagonal stores an explicit `0` at the valid
coordinate `(0, 0)` and a `7` at `(1, 1)`. -/
def diaZeroValue : DiaMatrix :=
  { num_rows := 2, num_cols := 2, num_entries := 2,
    diagonal_offsets := [0], pitch := 2, values := [0, 7] }

/-! ### Generic list helpers -/

theorem getD_map_range (f : Nat → Int) {i n : Nat} (h : i < n) (d : Int) :
    ((List.range n).map f).getD i d = f i := by
  simp [List.getD_eq_getElem?_getD, List.getElem?_map, List.getElem?_range h]

theorem getD_replicate_zero (n i : Nat) : (List.replicate n (0 : Int)).getD i 0 = 0 := by
  simp only [List.getD_eq_getElem?_getD, List.getElem?_replicate]
  split <;> rfl

theorem length_filter_mono (l : List Int) (p q : Int → Bool)
    (h : ∀ x, p x = true → q x = true) :
    (l.filter p).length ≤ (l.filter q).length := by
  induction l with
  | nil => simp
  | cons a t ih =>
    by_cases hp : p a = true
    · rw [List.filter_cons_of_pos hp, List.filter_cons_of_pos (h a hp)]
      simpa using ih
    · rw [List.filter_cons_of_neg (by simpa using hp)]
      by_cases hq : q a = true
      · rw [List.filter_cons_of_pos hq]
        exact le_trans ih (by simp)
      · rw [List.filter_cons_of_neg (by simpa using hq)]
        exact ih

theorem sorted_split_filter (c : Int) :
    ∀ l : List Int, l.Pairwise (· ≤ ·) →
      l = l.filter (fun x => decide (x < c)) ++ l.filter (fun x => !decide (x < c)) := by
  intro l
  induction l with
  | nil => simp
  | cons a t ih =>
    intro hp
    rcases List.pairwise_cons.mp hp with ⟨ha, ht⟩
    by_cases hac : a < c
    · rw [List.filter_cons_of_pos (by simpa using hac),
        List.filter_cons_of_neg (by simpa using hac)]
      simpa using ih ht
    · have hnone : ∀ b ∈ t, ¬ b < c := by
        intro b hb hbc
        exact hac (lt_of_le_of_lt (ha b hb) hbc)
      rw [List.filter_cons_of_neg (by simpa using hac),
        List.filter_cons_of_pos (by simpa using hac)]
      have h1 : t.filter (fun x => decide (x < c)) = [] := by
        apply List.filter_eq_nil_iff.mpr
        intro b hb
        simpa using hnone b hb
      have h2 : t.filter (fun x => !decide (x < c)) = t := by
        apply List.filter_eq_self.mpr
        intro b hb
        simpa using hnone b hb
      rw [h1, h2]
      simp

/-! ### The compaction order of the COO/CSR pipeline -/

theorem diaTemp_eq_rowMajor (A : DiaMatrix) : diaTemp A = rowMajorTriples A := by
  unfold diaTemp rowMajorTriples
  apply List.map_congr_left
  intro k hk
  rw [List.mem_range] at hk
  unfold diaSlot logical_to_other_physical
  have hnc : 0 < numDiagonals A := by
    rcases Nat.eq_zero_or_pos (numDiagonals A) with h | h
    · rw [values_num_entries, h, Nat.mul_zero] at hk; omega
    · exact h
  have hpitch : 0 < A.pitch := by
    rcases Nat.eq_zero_or_pos A.pitch with h | h
    · rw [values_num_entries, h, Nat.zero_mul] at hk; omega
    · exact h
  have hdiv : k / numDiagonals A < A.pitch := by
    rw [Nat.div_lt_iff_lt_mul hnc]
    rw [values_num_entries] at hk
    omega
  have hmod : (k % numDiagonals A * A.pitch + k / numDiagonals A) % A.pitch
      = k / numDiagonals A := by
    rw [Nat.add_comm, Nat.add_mul_mod_self_right, Nat.mod_eq_of_lt hdiv]
  have hdiv2 : (k % numDiagonals A * A.pitch + k / numDiagonals A) / A.pitch
      = k % numDiagonals A := by
    rw [Nat.add_comm, Nat.add_mul_div_right _ _ hpitch, Nat.div_eq_of_lt hdiv, Nat.zero_add]
  rw [hmod, hdiv2]

theorem mem_survivors_valid {A : DiaMatrix} {t : Int × Int × Int}
    (ht : t ∈ survivors A) : is_valid_coo_index A.num_rows A.num_cols t = true :=
  (List.mem_filter.mp ht).2

theorem valid_coo_spec {num_rows num_cols : Nat} {t : Int × Int × Int}
    (h : is_valid_coo_index num_rows num_cols t = true) :
    (0 ≤ t.1 ∧ t.1 < (num_rows : Int)) ∧
    (0 ≤ t.2.1 ∧ t.2.1 < (num_cols : Int)) ∧ t.2.2 ≠ 0 := by
  unfold is_valid_coo_index at h
  simp only [Bool.and_eq_true, decide_eq_true_eq] at h
  exact ⟨⟨by omega, h.1.1.2⟩, ⟨by omega, h.1.2.2⟩, h.2⟩

theorem survivor_rows_sorted (A : DiaMatrix) :
    ((survivors A).map (fun t => t.1)).Pairwise (· ≤ ·) := by
  have hbase : (rowMajorTriples A).Pairwise (fun s t => s.1 ≤ t.1) := by
    unfold rowMajorTriples
    apply List.Pairwise.map
    · intro a b hab
      exact Int.ofNat_le.mpr (Nat.div_le_div_right (le_of_lt hab))
    · exact List.pairwise_lt_range _
  have hfilter : (survivors A).Pairwise (fun s t => s.1 ≤ t.1) := by
    unfold survivors
    rw [diaTemp_eq_rowMajor]
    exact hbase.sublist (List.filter_sublist _)
  exact hfilter.map _ (fun a b h => h)

theorem survivor_rows_bounds {A : DiaMatrix} {x : Int}
    (hx : x ∈ (survivors A).map (fun t => t.1)) :
    0 ≤ x ∧ x < (A.num_rows : Int) := by
  rcases List.mem_map.mp hx with ⟨t, ht, rfl⟩
  exact (valid_coo_spec (mem_survivors_valid ht)).1

/-! ### Counting prefix sums and their expansion -/

/-- Number of entries of `l` with value below `i`. -/
def cntLT (l : List Int) (i : Nat) : Nat :=
  (l.filter (fun r => decide (r < (i : Int)))).length

theorem indices_to_offsets_getD (l : List Int) (n : Nat) {i : Nat} (h : i ≤ n) :
    (indices_to_offsets l n).getD i 0 = (cntLT l i : Int) := by
  unfold indices_to_offsets cntLT
  exact getD_map_range _ (show i < n + 1 by omega) 0

theorem cntLT_mono (l : List Int) {i j : Nat} (h : i ≤ j) : cntLT l i ≤ cntLT l j := by
  apply length_filter_mono
  intro x hx
  simp only [decide_eq_true_eq] at hx ⊢
  omega

theorem cntLT_all (l : List Int) (n : Nat) (h : ∀ x ∈ l, x < (n : Int)) :
    cntLT l n = l.length := by
  unfold cntLT
  rw [List.filter_eq_self.mpr (fun a ha => by simpa using h a ha)]

theorem expand_cnt_eq :
    ∀ (n : Nat) (l : List Int), l.Pairwise (· ≤ ·) →
      (∀ x ∈ l, 0 ≤ x ∧ x < (n : Int)) →
      ((List.range n).map
        (fun i => List.replicate (cntLT l (i + 1) - cntLT l i) ((i : Nat) : Int))).flatten = l := by
  intro n
  induction n with
  | zero =>
    intro l _ hb
    have hnil : l = [] := by
      cases l with
      | nil => rfl
      | cons a t =>
        have h1 := (hb a (by simp)).1
        have h2 := (hb a (by simp)).2
        simp only [Nat.cast_zero] at h2
        omega
    simp [hnil]
  | succ n ih =>
    intro l hs hb
    have hsplit := sorted_split_filter (n : Int) l hs
    have hlowsorted : (l.filter (fun x => decide (x < (n : Int)))).Pairwise (· ≤ ·) :=
      hs.sublist (List.filter_sublist _)
    have hlowb : ∀ x ∈ l.filter (fun x => decide (x < (n : Int))), 0 ≤ x ∧ x < (n : Int) := by
      intro x hx
      rcases List.mem_filter.mp hx with ⟨hxl, hxn⟩
      exact ⟨(hb x hxl).1, by simpa using hxn⟩
    have hcnt : ∀ j, j ≤ n →
        cntLT l j = cntLT (l.filter (fun x => decide (x < (n : Int)))) j := by
      intro j hj
      unfold cntLT
      conv_lhs => rw [hsplit]
      rw [List.filter_append, List.length_append]
      have hz : (l.filter (fun x => !decide (x < (n : Int)))).filter
          (fun r => decide (r < (j : Int))) = [] := by
        apply List.filter_eq_nil_iff.mpr
        intro b hb2
        rcases List.mem_filter.mp hb2 with ⟨_, hbn⟩
        simp only [Bool.not_eq_true', decide_eq_false_iff_not] at hbn
        simp only [decide_eq_true_eq, not_lt]
        have : (j : Int) ≤ (n : Int) := by exact_mod_cast hj
        omega
      rw [hz]
      simp
    have hfirst :
        ((List.range n).map
          (fun i => List.replicate (cntLT l (i + 1) - cntLT l i) ((i : Nat) : Int))).flatten
        = l.filter (fun x => decide (x < (n : Int))) := by
      have hmap : (List.range n).map
            (fun i => List.replicate (cntLT l (i + 1) - cntLT l i) ((i : Nat) : Int))
          = (List.range n).map
            (fun i => List.replicate
              (cntLT (l.filter (fun x => decide (x < (n : Int)))) (i + 1)
                - cntLT (l.filter (fun x => decide (x < (n : Int)))) i) ((i : Nat) : Int)) := by
        apply List.map_congr_left
        intro i hi
        rw [List.mem_range] at hi
        rw [hcnt i (by omega), hcnt (i + 1) (by omega)]
      rw [hmap]
      exact ih _ hlowsorted hlowb
    have hlen : l.length = (l.filter (fun x => decide (x < (n : Int)))).length
        + (l.filter (fun x => !decide (x < (n : Int)))).length := by
      conv_lhs => rw [hsplit]
      rw [List.length_append]
    have hcnt_top : cntLT l (n + 1) = l.length := by
      apply cntLT_all
      intro x hx
      have h2 := (hb x hx).2
      push_cast at h2 ⊢
      omega
    have hcnt_n : cntLT l n = (l.filter (fun x => decide (x < (n : Int)))).length := rfl
    have hhigh_rep : l.filter (fun x => !decide (x < (n : Int)))
        = List.replicate (l.filter (fun x => !decide (x < (n : Int)))).length ((n : Nat) : Int) := by
      rw [List.eq_replicate_iff]
      refine ⟨rfl, ?_⟩
      intro b hb2
      rcases List.mem_filter.mp hb2 with ⟨hbl, hbn⟩
      have h1 := (hb b hbl).2
      simp only [Bool.not_eq_true', decide_eq_false_iff_not, not_lt] at hbn
      push_cast at h1
      omega
    rw [List.range_succ, List.map_append, List.flatten_append, hfirst]
    simp only [List.map_cons, List.map_nil, List.flatten_cons, List.flatten_nil,
      List.append_nil]
    rw [hcnt_top, hcnt_n]
    have hsub : l.length - (l.filter (fun x => decide (x < (n : Int)))).length
        = (l.filter (fun x => !decide (x < (n : Int)))).length := by omega
    rw [hsub, ← hhigh_rep, ← hsplit]

theorem expand_indices_to_offsets (l : List Int) (n : Nat)
    (hs : l.Pairwise (· ≤ ·)) (hb : ∀ x ∈ l, 0 ≤ x ∧ x < (n : Int)) :
    expandOffsets (indices_to_offsets l n) n = l := by
  unfold expandOffsets
  have hmap : (List.range n).map
        (fun i => List.replicate
          ((indices_to_offsets l n).getD (i + 1) 0 - (indices_to_offsets l n).getD i 0).toNat
          ((i : Nat) : Int))
      = (List.range n).map
        (fun i => List.replicate (cntLT l (i + 1) - cntLT l i) ((i : Nat) : Int)) := by
    apply List.map_congr_left
    intro i hi
    rw [List.mem_range] at hi
    rw [indices_to_offsets_getD l n (by omega), indices_to_offsets_getD l n (by omega)]
    congr 1
    have := cntLT_mono l (Nat.le_succ i)
    omega
  rw [hmap]
  exact expand_cnt_eq n l hs hb

/-! ### Destination array helpers -/

theorem fillInto_of_length_eq {n : Nat} {xs : List Int} (h : xs.length = n) :
    fillInto n xs = xs := by
  unfold fillInto
  rw [h, Nat.sub_self]
  simp

theorem fillInto_drop (n : Nat) (s : List (Int × Int × Int)) (f : Int × Int × Int → Int) :
    (fillInto n (s.map f)).drop s.length = List.replicate (n - s.length) 0 := by
  unfold fillInto
  rw [List.length_map]
  have h := List.drop_left (s.map f) (List.replicate (n - s.length) (0 : Int))
  rw [List.length_map] at h
  exact h

/-! ### Claims -/

/-- C1 (amended): for a structurally valid DIA source with `num_rows ≥ 1`, the
CSR `row_offsets` array has length `num_rows + 1`, is monotonically
non-decreasing, and its last element equals the source's `num_entries` field
(the pre-filter allocation size); it equals the surviving-entry count exactly
when every allocated entry survives the validity filter. -/
theorem csr_row_offsets_shape (A : DiaMatrix) (hv : StructurallyValid A)
    (hr : 0 < A.num_rows) :
    (convert_dia_to_csr A).row_offsets.length = A.num_rows + 1 ∧
    (∀ i j, i ≤ j → j < A.num_rows + 1 →
      (convert_dia_to_csr A).row_offsets.getD i 0
        ≤ (convert_dia_to_csr A).row_offsets.getD j 0) ∧
    (convert_dia_to_csr A).row_offsets.getD A.num_rows 0 = (A.num_entries : Int) ∧
    ((survivors A).length = A.num_entries →
      (convert_dia_to_csr A).row_offsets.getD A.num_rows 0 = ((survivors A).length : Int)) := by
  by_cases hne : A.num_entries = 0
  · have hoff : (convert_dia_to_csr A).row_offsets = List.replicate (A.num_rows + 1) 0 := by
      unfold convert_dia_to_csr
      rw [if_pos hne]
    refine ⟨?_, ?_, ?_, ?_⟩
    · rw [hoff]; simp
    · intro i j _ _
      rw [hoff, getD_replicate_zero, getD_replicate_zero]
    · rw [hoff, getD_replicate_zero, hne]; rfl
    · intro hcnt
      rw [hoff, getD_replicate_zero, hcnt, hne]
      rfl
  · have hoff : (convert_dia_to_csr A).row_offsets
        = indices_to_offsets (fillInto A.num_entries ((survivors A).map (fun t => t.1)))
            A.num_rows := by
      unfold convert_dia_to_csr
      rw [if_neg hne]
    have hlen_arr : (fillInto A.num_entries ((survivors A).map (fun t => t.1))).length
        = A.num_entries := by
      unfold fillInto
      rw [List.length_append, List.length_replicate, List.length_map]
      have := hv.2.2
      omega
    refine ⟨?_, ?_, ?_, ?_⟩
    · rw [hoff]
      unfold indices_to_offsets
      simp
    · intro i j hij hj
      rw [hoff, indices_to_offsets_getD _ _ (show i ≤ A.num_rows by omega),
        indices_to_offsets_getD _ _ (show j ≤ A.num_rows by omega)]
      exact_mod_cast cntLT_mono _ hij
    · rw [hoff, indices_to_offsets_getD _ _ (le_refl A.num_rows)]
      have hall : ∀ x ∈ fillInto A.num_entries ((survivors A).map (fun t => t.1)),
          x < (A.num_rows : Int) := by
        intro x hx
        rcases List.mem_append.mp hx with h | h
        · exact (survivor_rows_bounds h).2
        · rcases List.eq_of_mem_replicate h with rfl
          exact_mod_cast hr
      rw [cntLT_all _ _ hall, hlen_arr]
    · intro hcnt
      rw [hoff, indices_to_offsets_getD _ _ (le_refl A.num_rows)]
      have hall : ∀ x ∈ fillInto A.num_entries ((survivors A).map (fun t => t.1)),
          x < (A.num_rows : Int) := by
        intro x hx
        rcases List.mem_append.mp hx with h | h
        · exact (survivor_rows_bounds h).2
        · rcases List.eq_of_mem_replicate h with rfl
          exact_mod_cast hr
      rw [cntLT_all _ _ hall, hlen_arr, hcnt]

/-- C1 (counterexample): on the structurally valid source `diaPartial` only one
of the two allocated entries survives, yet the last element of the CSR
`row_offsets` is `2 = num_entries`, not the survivor count `1`. -/
theorem csr_row_offsets_last_ne_survivors :
    StructurallyValid diaPartial ∧ 0 < diaPartial.num_rows ∧
    (survivors diaPartial).length = 1 ∧
    (convert_dia_to_csr diaPartial).row_offsets.getD diaPartial.num_rows 0
      ≠ ((survivors diaPartial).length : Int) := by decide

/-- C1 (witness): the amended row-offsets shape at the concrete source
`diaScenario`. -/
theorem csr_row_offsets_shape_witness :
    StructurallyValid diaScenario ∧ 0 < diaScenario.num_rows ∧
    ((convert_dia_to_csr diaScenario).row_offsets.length = diaScenario.num_rows + 1 ∧
     (∀ i j, i ≤ j → j < diaScenario.num_rows + 1 →
       (convert_dia_to_csr diaScenario).row_offsets.getD i 0
         ≤ (convert_dia_to_csr diaScenario).row_offsets.getD j 0) ∧
     (convert_dia_to_csr diaScenario).row_offsets.getD diaScenario.num_rows 0
       = (diaScenario.num_entries : Int) ∧
     ((survivors diaScenario).length = diaScenario.num_entries →
       (convert_dia_to_csr diaScenario).row_offsets.getD diaScenario.num_rows 0
         = ((survivors diaScenario).length : Int))) :=
  ⟨by decide, by decide, csr_row_offsets_shape diaScenario (by decide) (by decide)⟩

/-- C2 (amended): when every one of the `num_entries` allocated slots is filled
by a surviving triple, DIA→COO and DIA→CSR agree: expanding the CSR
`row_offsets` back to per-entry row indices reproduces COO's `row_indices`
exactly, and the two conversions yield the same multiset (indeed the same
list) of `(row, column, value)` triples. -/
theorem coo_csr_same_triples_of_all_survive (A : DiaMatrix) (_hv : StructurallyValid A)
    (hall : (survivors A).length = A.num_entries) :
    expandOffsets (convert_dia_to_csr A).row_offsets A.num_rows
      = (convert_dia_to_coo A).row_indices ∧
    ((expandOffsets (convert_dia_to_csr A).row_offsets A.num_rows).zip
        ((convert_dia_to_csr A).column_indices.zip (convert_dia_to_csr A).values)
      : Multiset (Int × Int × Int))
      = ((convert_dia_to_coo A).row_indices.zip
          ((convert_dia_to_coo A).column_indices.zip (convert_dia_to_coo A).values)
        : Multiset (Int × Int × Int)) := by
  have hcols : (convert_dia_to_csr A).column_indices = (convert_dia_to_coo A).column_indices := by
    unfold convert_dia_to_csr convert_dia_to_coo
    by_cases hne : A.num_entries = 0 <;> simp [hne]
  have hvals : (convert_dia_to_csr A).values = (convert_dia_to_coo A).values := by
    unfold convert_dia_to_csr convert_dia_to_coo
    by_cases hne : A.num_entries = 0 <;> simp [hne]
  have hexp : expandOffsets (convert_dia_to_csr A).row_offsets A.num_rows
      = (convert_dia_to_coo A).row_indices := by
    by_cases hne : A.num_entries = 0
    · have hoff : (convert_dia_to_csr A).row_offsets = List.replicate (A.num_rows + 1) 0 := by
        unfold convert_dia_to_csr
        rw [if_pos hne]
      have hrow : (convert_dia_to_coo A).row_indices = [] := by
        unfold convert_dia_to_coo
        rw [if_pos hne]
      rw [hoff, hrow]
      unfold expandOffsets
      have hmap : (List.range A.num_rows).map
          (fun i => List.replicate
            ((List.replicate (A.num_rows + 1) (0 : Int)).getD (i + 1) 0
              - (List.replicate (A.num_rows + 1) (0 : Int)).getD i 0).toNat ((i : Nat) : Int))
          = (List.range A.num_rows).map (fun _ => ([] : List Int)) := by
        apply List.map_congr_left
        intro i _
        rw [getD_replicate_zero, getD_replicate_zero]
        rfl
      rw [hmap]
      simp
    · have hrowsfill : (convert_dia_to_coo A).row_indices
          = (survivors A).map (fun t => t.1) := by
        unfold convert_dia_to_coo
        rw [if_neg hne]
        exact fillInto_of_length_eq (by rw [List.length_map, hall])
      have hoff : (convert_dia_to_csr A).row_offsets
          = indices_to_offsets ((survivors A).map (fun t => t.1)) A.num_rows := by
        unfold convert_dia_to_csr
        rw [if_neg hne, fillInto_of_length_eq (by rw [List.length_map, hall])]
      rw [hoff, hrowsfill]
      exact expand_indices_to_offsets _ _ (survivor_rows_sorted A)
        (fun x hx => survivor_rows_bounds hx)
  refine ⟨hexp, ?_⟩
  rw [hexp, hcols, hvals]

/-- C2 (counterexample): on the structurally valid source `diaPartial`, where
only one of the two allocated entries survives, expanding the CSR
`row_offsets` yields `[0, 1]` while COO's surviving row indices are `[1]`, and
the zipped triple lists disagree as multisets. -/
theorem coo_csr_triples_differ_on_partial_fill :
    StructurallyValid diaPartial ∧
    expandOffsets (convert_dia_to_csr diaPartial).row_offsets diaPartial.num_rows
      ≠ ((convert_dia_to_coo diaPartial).row_indices.take (survivors diaPartial).length) ∧
    ¬ (((expandOffsets (convert_dia_to_csr diaPartial).row_offsets diaPartial.num_rows).zip
          ((convert_dia_to_csr diaPartial).column_indices.zip
            (convert_dia_to_csr diaPartial).values) : Multiset (Int × Int × Int))
        = ((convert_dia_to_coo diaPartial).row_indices.zip
            ((convert_dia_to_coo diaPartial).column_indices.zip
              (convert_dia_to_coo diaPartial).values) : Multiset (Int × Int × Int))) := by
  refine ⟨by decide, by decide, ?_⟩
  intro h
  have hperm := Multiset.coe_eq_coe.mp h
  have hmem := hperm.mem_iff (a := ((1 : Int), (0 : Int), (7 : Int)))
  revert hmem
  decide

/-- C2 (witness): the amended agreement at the concrete source `diaScenario`,
whose two allocated entries both survive. -/
theorem coo_csr_same_triples_witness :
    StructurallyValid diaScenario ∧
    (survivors diaScenario).length = diaScenario.num_entries ∧
    (expandOffsets (convert_dia_to_csr diaScenario).row_offsets diaScenario.num_rows
      = (convert_dia_to_coo diaScenario).row_indices ∧
    ((expandOffsets (convert_dia_to_csr diaScenario).row_offsets diaScenario.num_rows).zip
        ((convert_dia_to_csr diaScenario).column_indices.zip (convert_dia_to_csr diaScenario).values)
      : Multiset (Int × Int × Int))
      = ((convert_dia_to_coo diaScenario).row_indices.zip
          ((convert_dia_to_coo diaScenario).column_indices.zip
            (convert_dia_to_coo diaScenario).values)
        : Multiset (Int × Int × Int))) :=
  ⟨by decide, by decide, coo_csr_same_triples_of_all_survive diaScenario (by decide) (by decide)⟩

/-- C3: every triple that survives the validity filter shared by the DIA→COO
and DIA→CSR conversions has `0 ≤ row < num_rows`, `0 ≤ column < num_cols`, and
a nonzero value. -/
theorem survivor_triples_in_bounds (A : DiaMatrix) (t : Int × Int × Int)
    (ht : t ∈ survivors A) :
    (0 ≤ t.1 ∧ t.1 < (A.num_rows : Int)) ∧
    (0 ≤ t.2.1 ∧ t.2.1 < (A.num_cols : Int)) ∧ t.2.2 ≠ 0 :=
  valid_coo_spec (mem_survivors_valid ht)

/-- C3 (witness): the bounds at the concrete surviving triple `(0, 1, 1)` of
`diaScenario`. -/
theorem survivor_triples_in_bounds_witness :
    ((0 : Int), (1 : Int), (1 : Int)) ∈ survivors diaScenario ∧
    ((0 ≤ ((0 : Int), (1 : Int), (1 : Int)).1 ∧
        ((0 : Int), (1 : Int), (1 : Int)).1 < (diaScenario.num_rows : Int)) ∧
     (0 ≤ ((0 : Int), (1 : Int), (1 : Int)).2.1 ∧
        ((0 : Int), (1 : Int), (1 : Int)).2.1 < (diaScenario.num_cols : Int)) ∧
     ((0 : Int), (1 : Int), (1 : Int)).2.2 ≠ 0) :=
  ⟨by decide, survivor_triples_in_bounds diaScenario _ (by decide)⟩

/-- C4: on the 3×3 source with one diagonal at offset `+1`, pitch 3 and stored
values `[1, 2, 3]`, the row-2 slot (derived column 3, out of range) is dropped
and the COO result has exactly the two entries `(0, 1, 1)` and `(1, 2, 2)`. -/
theorem coo_drops_overhang_scenario :
    ((2 : Int), (3 : Int), (3 : Int)) ∉ survivors diaScenario ∧
    (convert_dia_to_coo diaScenario).num_entries = 2 ∧
    (convert_dia_to_coo diaScenario).row_indices = [0, 1] ∧
    (convert_dia_to_coo diaScenario).column_indices = [1, 2] ∧
    (convert_dia_to_coo diaScenario).values = [1, 2] := by decide

/-- C5: a DIA source with `num_entries = 0` converts to COO, CSR and ELL
destinations that carry zero entries and the source's `num_rows` and
`num_cols`. -/
theorem empty_source_conversions (A : DiaMatrix) (h : A.num_entries = 0) :
    ((convert_dia_to_coo A).num_rows = A.num_rows ∧
     (convert_dia_to_coo A).num_cols = A.num_cols ∧
     (convert_dia_to_coo A).num_entries = 0 ∧
     (convert_dia_to_coo A).row_indices = [] ∧
     (convert_dia_to_coo A).column_indices = [] ∧
     (convert_dia_to_coo A).values = []) ∧
    ((convert_dia_to_csr A).num_rows = A.num_rows ∧
     (convert_dia_to_csr A).num_cols = A.num_cols ∧
     (convert_dia_to_csr A).num_entries = 0 ∧
     (convert_dia_to_csr A).column_indices = [] ∧
     (convert_dia_to_csr A).values = []) ∧
    ((convert_dia_to_ell A).num_rows = A.num_rows ∧
     (convert_dia_to_ell A).num_cols = A.num_cols ∧
     (convert_dia_to_ell A).num_entries = 0) := by
  refine ⟨?_, ?_, ?_⟩ <;>
    simp [convert_dia_to_coo, convert_dia_to_csr, convert_dia_to_ell, h]

/-- C5 (witness): the empty-source conversion behaviour at the concrete source
`diaEmptyEntries`. -/
theorem empty_source_conversions_witness :
    diaEmptyEntries.num_entries = 0 ∧
    (((convert_dia_to_coo diaEmptyEntries).num_rows = diaEmptyEntries.num_rows ∧
      (convert_dia_to_coo diaEmptyEntries).num_cols = diaEmptyEntries.num_cols ∧
      (convert_dia_to_coo diaEmptyEntries).num_entries = 0 ∧
      (convert_dia_to_coo diaEmptyEntries).row_indices = [] ∧
      (convert_dia_to_coo diaEmptyEntries).column_indices = [] ∧
      (convert_dia_to_coo diaEmptyEntries).values = []) ∧
     ((convert_dia_to_csr diaEmptyEntries).num_rows = diaEmptyEntries.num_rows ∧
      (convert_dia_to_csr diaEmptyEntries).num_cols = diaEmptyEntries.num_cols ∧
      (convert_dia_to_csr diaEmptyEntries).num_entries = 0 ∧
      (convert_dia_to_csr diaEmptyEntries).column_indices = [] ∧
      (convert_dia_to_csr diaEmptyEntries).values = []) ∧
     ((convert_dia_to_ell diaEmptyEntries).num_rows = diaEmptyEntries.num_rows ∧
      (convert_dia_to_ell diaEmptyEntries).num_cols = diaEmptyEntries.num_cols ∧
      (convert_dia_to_ell diaEmptyEntries).num_entries = 0)) :=
  ⟨by decide, empty_source_conversions diaEmptyEntries (by decide)⟩

/-- C6 (amended): for a structurally valid DIA source that does not take the
`num_entries == 0` early return, the ELL conversion writes a column-index
block with the same total slot count as the source value block
(`pitch × num_diagonals`), and a slot holds the sentinel `-1` exactly when its
derived column `diagonal_offsets[p / pitch] + (p % pitch)` lies outside
`[0, num_cols)`. -/
theorem ell_sentinel_iff_out_of_range (A : DiaMatrix) (hv : StructurallyValid A)
    (hne : A.num_entries ≠ 0) :
    (convert_dia_to_ell A).column_indices.length = A.values.length ∧
    (convert_dia_to_ell A).column_indices.length = A.pitch * numDiagonals A ∧
    ∀ p, p < A.pitch * numDiagonals A →
      ((convert_dia_to_ell A).column_indices.getD p 0 = -1 ↔
        ¬ (0 ≤ derivedColumn A p ∧ derivedColumn A p < (A.num_cols : Int))) := by
  have hcols : (convert_dia_to_ell A).column_indices
      = (List.range (values_num_entries A)).map
          (fun p => valid_ell_functor A.num_cols
            (A.diagonal_offsets.getD (p / A.pitch) 0 + ((p % A.pitch : Nat) : Int))) := by
    unfold convert_dia_to_ell
    rw [if_neg hne]
  refine ⟨?_, ?_, ?_⟩
  · rw [hcols, hv.2.1]
    simp [values_num_entries]
  · rw [hcols]
    simp [values_num_entries]
  · intro p hp
    rw [hcols, getD_map_range _ (show p < values_num_entries A from hp) 0]
    unfold valid_ell_functor derivedColumn
    by_cases hc : 0 ≤ A.diagonal_offsets.getD (p / A.pitch) 0 + ((p % A.pitch : Nat) : Int) ∧
        A.diagonal_offsets.getD (p / A.pitch) 0 + ((p % A.pitch : Nat) : Int) < (A.num_cols : Int)
    · rw [if_pos hc]
      constructor
      · intro h1
        exfalso
        rcases hc with ⟨hc1, _⟩
        omega
      · intro h1
        exact absurd hc h1
    · rw [if_neg hc]
      exact ⟨fun _ => hc, fun _ => rfl⟩

/-- C6 (counterexample): `diaEmptyEntries` is structurally valid and its only
slot has derived column `5`, outside `[0, 1)`, yet after conversion the slot
holds `0`, not the sentinel `-1`, because the `num_entries == 0` early return
skips the sentinel rewrite. -/
theorem ell_sentinel_fails_on_zero_entries :
    StructurallyValid diaEmptyEntries ∧
    0 < diaEmptyEntries.pitch * numDiagonals diaEmptyEntries ∧
    ¬ ((convert_dia_to_ell diaEmptyEntries).column_indices.getD 0 0 = -1 ↔
        ¬ (0 ≤ derivedColumn diaEmptyEntries 0 ∧
           derivedColumn diaEmptyEntries 0 < (diaEmptyEntries.num_cols : Int))) := by decide

/-- C6 (witness): the amended sentinel property at the concrete source
`diaScenario`. -/
theorem ell_sentinel_iff_out_of_range_witness :
    StructurallyValid diaScenario ∧ diaScenario.num_entries ≠ 0 ∧
    ((convert_dia_to_ell diaScenario).column_indices.length = diaScenario.values.length ∧
     (convert_dia_to_ell diaScenario).column_indices.length
       = diaScenario.pitch * numDiagonals diaScenario ∧
     ∀ p, p < diaScenario.pitch * numDiagonals diaScenario →
       ((convert_dia_to_ell diaScenario).column_indices.getD p 0 = -1 ↔
         ¬ (0 ≤ derivedColumn diaScenario p ∧
            derivedColumn diaScenario p < (diaScenario.num_cols : Int)))) :=
  ⟨by decide, by decide, ell_sentinel_iff_out_of_range diaScenario (by decide) (by decide)⟩

/-- C7: a stored value `0` at an otherwise valid coordinate never appears among
the surviving triples of the COO/CSR filter, but the ELL conversion copies the
value slot verbatim and leaves its column-index slot unequal to the sentinel
`-1`. -/
theorem zero_value_absent_coo_kept_ell (A : DiaMatrix) (_hv : StructurallyValid A)
    (p : Nat) (hp : p < values_num_entries A)
    (_hrow : ((p % A.pitch : Nat) : Int) < (A.num_rows : Int))
    (hcol : 0 ≤ derivedColumn A p ∧ derivedColumn A p < (A.num_cols : Int))
    (hval : A.values.getD p 0 = 0) :
    (((p % A.pitch : Nat) : Int), derivedColumn A p, (0 : Int)) ∉ survivors A ∧
    (convert_dia_to_ell A).values.getD p 0 = A.values.getD p 0 ∧
    (convert_dia_to_ell A).column_indices.getD p 0 ≠ -1 := by
  refine ⟨?_, ?_, ?_⟩
  · intro hmem
    exact (valid_coo_spec (mem_survivors_valid hmem)).2.2 rfl
  · by_cases hne : A.num_entries = 0
    · have hzero : (convert_dia_to_ell A).values = List.replicate (values_num_entries A) 0 := by
        unfold convert_dia_to_ell
        rw [if_pos hne]
      rw [hzero, getD_replicate_zero, hval]
    · have hsame : (convert_dia_to_ell A).values = A.values := by
        unfold convert_dia_to_ell
        rw [if_neg hne]
      rw [hsame]
  · by_cases hne : A.num_entries = 0
    · have hzero : (convert_dia_to_ell A).column_indices
          = List.replicate (values_num_entries A) 0 := by
        unfold convert_dia_to_ell
        rw [if_pos hne]
      rw [hzero, getD_replicate_zero]
      decide
    · have hcols : (convert_dia_to_ell A).column_indices
          = (List.range (values_num_entries A)).map
              (fun q => valid_ell_functor A.num_cols
                (A.diagonal_offsets.getD (q / A.pitch) 0 + ((q % A.pitch : Nat) : Int))) := by
        unfold convert_dia_to_ell
        rw [if_neg hne]
      rw [hcols, getD_map_range _ hp 0]
      unfold valid_ell_functor
      unfold derivedColumn at hcol
      rw [if_pos hcol]
      rcases hcol with ⟨hc1, _⟩
      omega

/-- C7 (witness): the zero-value asymmetry at slot `0` of the concrete source
`diaZeroValue`. -/
theorem zero_value_absent_coo_kept_ell_witness :
    StructurallyValid diaZeroValue ∧ 0 < values_num_entries diaZeroValue ∧
    ((0 % diaZeroValue.pitch : Nat) : Int) < (diaZeroValue.num_rows : Int) ∧
    (0 ≤ derivedColumn diaZeroValue 0 ∧
      derivedColumn diaZeroValue 0 < (diaZeroValue.num_cols : Int)) ∧
    diaZeroValue.values.getD 0 0 = 0 ∧
    ((((0 % diaZeroValue.pitch : Nat) : Int), derivedColumn diaZeroValue 0, (0 : Int))
        ∉ survivors diaZeroValue ∧
      (convert_dia_to_ell diaZeroValue).values.getD 0 0 = diaZeroValue.values.getD 0 0 ∧
      (convert_dia_to_ell diaZeroValue).column_indices.getD 0 0 ≠ -1) :=
  ⟨by decide, by decide, by decide, by decide, by decide,
    zero_value_absent_coo_kept_ell diaZeroValue (by decide) 0 (by decide) (by decide)
      (by decide) (by decide)⟩

/-- C8 (amended): for a structurally valid DIA source, the surviving triples
appear in the DIA→COO output compacted in row-major `(row, diag)` order — the
order induced by the `logical_to_other_physical` permutation of the physical
`k` enumeration — i.e. the output prefix of survivor length is exactly the
subsequence of the row-major enumeration that passes the validity predicate. -/
theorem compaction_order_row_major (A : DiaMatrix) (hv : StructurallyValid A) :
    ((convert_dia_to_coo A).row_indices.zip
      ((convert_dia_to_coo A).column_indices.zip (convert_dia_to_coo A).values)).take
        (survivors A).length
    = (rowMajorTriples A).filter (is_valid_coo_index A.num_rows A.num_cols) := by
  have hrhs : (rowMajorTriples A).filter (is_valid_coo_index A.num_rows A.num_cols)
      = survivors A := by
    unfold survivors
    rw [diaTemp_eq_rowMajor]
  rw [hrhs]
  by_cases hne : A.num_entries = 0
  · have hcnt : (survivors A).length = 0 := by
      have h1 := hv.2.2
      omega
    have hs : survivors A = [] := List.length_eq_zero.mp hcnt
    unfold convert_dia_to_coo
    rw [if_pos hne, hs]
    rfl
  · unfold convert_dia_to_coo
    rw [if_neg hne]
    unfold fillInto
    simp only [List.length_map]
    have hzin : ((survivors A).map (fun t => t.2.1)
          ++ List.replicate (A.num_entries - (survivors A).length) (0 : Int)).zip
        ((survivors A).map (fun t => t.2.2)
          ++ List.replicate (A.num_entries - (survivors A).length) (0 : Int))
        = (survivors A).map (fun t => (t.2.1, t.2.2))
          ++ (List.replicate (A.num_entries - (survivors A).length) (0 : Int)).zip
              (List.replicate (A.num_entries - (survivors A).length) (0 : Int)) := by
      rw [List.zip_append (by simp), List.zip_map']
    have hzout : ((survivors A).map (fun t => t.1)
          ++ List.replicate (A.num_entries - (survivors A).length) (0 : Int)).zip
        ((survivors A).map (fun t => (t.2.1, t.2.2))
          ++ (List.replicate (A.num_entries - (survivors A).length) (0 : Int)).zip
              (List.replicate (A.num_entries - (survivors A).length) (0 : Int)))
        = (survivors A).map (fun t => (t.1, t.2.1, t.2.2))
          ++ (List.replicate (A.num_entries - (survivors A).length) (0 : Int)).zip
              ((List.replicate (A.num_entries - (survivors A).length) (0 : Int)).zip
                (List.replicate (A.num_entries - (survivors A).length) (0 : Int))) := by
      rw [List.zip_append (by simp), List.zip_map']
    rw [hzin, hzout]
    have hmapid : (survivors A).map (fun t => (t.1, t.2.1, t.2.2)) = survivors A := by
      simp
    rw [hmapid]
    have htake := List.take_left (survivors A)
      ((List.replicate (A.num_entries - (survivors A).length) (0 : Int)).zip
        ((List.replicate (A.num_entries - (survivors A).length) (0 : Int)).zip
          (List.replicate (A.num_entries - (survivors A).length) (0 : Int))))
    exact htake

/-- C8 (counterexample): on the structurally valid two-diagonal source
`diaTwoDiag`, the COO output prefix is not the filtered diagonal-major
(`row = k % pitch`, `diag = k / pitch`) enumeration: the compaction emits
`(0, 1, 3)` before `(1, 1, 2)`, the diagonal-major order the other way
around. -/
theorem compaction_order_not_diag_major :
    StructurallyValid diaTwoDiag ∧
    ¬ (((convert_dia_to_coo diaTwoDiag).row_indices.zip
          ((convert_dia_to_coo diaTwoDiag).column_indices.zip
            (convert_dia_to_coo diaTwoDiag).values)).take (survivors diaTwoDiag).length
        = (diagMajorTriples diaTwoDiag).filter
            (is_valid_coo_index diaTwoDiag.num_rows diaTwoDiag.num_cols)) := by decide

/-- C8 (witness): the row-major compaction order at the concrete source
`diaTwoDiag`. -/
theorem compaction_order_row_major_witness :
    StructurallyValid diaTwoDiag ∧
    ((convert_dia_to_coo diaTwoDiag).row_indices.zip
      ((convert_dia_to_coo diaTwoDiag).column_indices.zip
        (convert_dia_to_coo diaTwoDiag).values)).take (survivors diaTwoDiag).length
    = (rowMajorTriples diaTwoDiag).filter
        (is_valid_coo_index diaTwoDiag.num_rows diaTwoDiag.num_cols) :=
  ⟨by decide, compaction_order_row_major diaTwoDiag (by decide)⟩

/-- C10: for a structurally valid DIA source with `num_entries > 0`, the COO
and CSR destinations keep `num_entries` equal to the source's pre-filter
`num_entries`, and the array slots beyond the survivor count retain their
zero default-initialised contents. -/
theorem destination_allocation_prefilter (A : DiaMatrix) (_hv : StructurallyValid A)
    (hne : 0 < A.num_entries) :
    (convert_dia_to_coo A).num_entries = A.num_entries ∧
    (convert_dia_to_csr A).num_entries = A.num_entries ∧
    (convert_dia_to_coo A).row_indices.drop (survivors A).length
      = List.replicate (A.num_entries - (survivors A).length) 0 ∧
    (convert_dia_to_coo A).column_indices.drop (survivors A).length
      = List.replicate (A.num_entries - (survivors A).length) 0 ∧
    (convert_dia_to_coo A).values.drop (survivors A).length
      = List.replicate (A.num_entries - (survivors A).length) 0 ∧
    (convert_dia_to_csr A).column_indices.drop (survivors A).length
      = List.replicate (A.num_entries - (survivors A).length) 0 ∧
    (convert_dia_to_csr A).values.drop (survivors A).length
      = List.replicate (A.num_entries - (survivors A).length) 0 := by
  have hne0 : ¬ A.num_entries = 0 := by omega
  unfold convert_dia_to_coo convert_dia_to_csr
  rw [if_neg hne0, if_neg hne0]
  refine ⟨rfl, rfl, ?_, ?_, ?_, ?_, ?_⟩ <;> exact fillInto_drop _ _ _

/-- C10 (witness): the pre-filter allocation behaviour at the concrete source
`diaPartial`, whose destination arrays end in an unwritten zero slot. -/
theorem destination_allocation_prefilter_witness :
    StructurallyValid diaPartial ∧ 0 < diaPartial.num_entries ∧
    ((convert_dia_to_coo diaPartial).num_entries = diaPartial.num_entries ∧
     (convert_dia_to_csr diaPartial).num_entries = diaPartial.num_entries ∧
     (convert_dia_to_coo diaPartial).row_indices.drop (survivors diaPartial).length
       = List.replicate (diaPartial.num_entries - (survivors diaPartial).length) 0 ∧
     (convert_dia_to_coo diaPartial).column_indices.drop (survivors diaPartial).length
       = List.replicate (diaPartial.num_entries - (survivors diaPartial).length) 0 ∧
     (convert_dia_to_coo diaPartial).values.drop (survivors diaPartial).length
       = List.replicate (diaPartial.num_entries - (survivors diaPartial).length) 0 ∧
     (convert_dia_to_csr diaPartial).column_indices.drop (survivors diaPartial).length
       = List.replicate (diaPartial.num_entries - (survivors diaPartial).length) 0 ∧
     (convert_dia_to_csr diaPartial).values.drop (survivors diaPartial).length
       = List.replicate (diaPartial.num_entries - (survivors diaPartial).length) 0) :=
  ⟨by decide, by decide, destination_allocation_prefilter diaPartial (by decide) (by decide)⟩
